import Mathlib

/-
Verification of the signal-processing core of the repository (utils_signal/utils_signal.py):
the peak detector detect_peaks, the ECG classifier is_ecg_signal and the
denoiser/amplifier wavelet_denoise.

Modelling conventions, stated once here:
* Python floats are modelled as exact rationals.  The float expressions int(0.1*fs) and
  int(0.3*fs) are modelled as the exact floor divisions fs/10 and 3*fs/10, and np.log2
  composed with floor/ceil as the exact Int.log / Int.clog.
* The external collaborators pywt.swt / pywt.iswt (the stationary wavelet transform) are
  not part of the repository; they are modelled as an abstract oracle (SwtOracle) over
  which all theorems quantify.
* NaN handling in detect_peaks (lines 169-172, 189-191 of the source) is vacuous on the
  NaN-free rational signals of this embedding and is therefore omitted; likewise the
  prominence filter (lines 249-251), which only wraps the external
  scipy.signal.peak_prominences and is not touched by any claim (all uses have
  prominence=None).  Plotting and verbosity parameters are omitted (pure I/O).
* np.argsort leaves the relative order of equal elements unspecified; the embedding fixes
  the stable insertion sort.  All proved statements are independent of the tie order.
* The float NaN returned in the amplified_ratio field is modelled as Option.none.
* Raising Python control flow is modelled with Except: the raise for the unimplemented
  interp side mode (line 1031), the IndexError of the amplification loop when the level
  range extends below the coefficient stack (lines 1009-1010), and the IndexError of
  np.percentile on the empty amplitude list in is_ecg_signal (line 666).  The envelope
  reconstruction loop (lines 633/875) is kept total: its indexing leaves the stack only
  for fs <= 40, a region the is_ecg_signal theorems exclude by hypothesis.
-/

set_option maxRecDepth 40000

namespace UtilsSignal

/-- Python slice l[a:b] of a list, for natural bounds (clamped at the length). -/
def pySlice (l : List ℚ) (a b : ℕ) : List ℚ := (l.drop a).take (b - a)

/-- np.max of a list (the head as default makes it the true maximum on nonempty input;
numpy raises on empty input, which no claim exercises). -/
def listMax (l : List ℚ) : ℚ := l.foldr max (l.headD 0)

/-- np.min of a list, analogous to listMax. -/
def listMin (l : List ℚ) : ℚ := l.foldr min (l.headD 0)

/-- The edge parameter of detect_peaks; Option Edge with none models edge=None. -/
inductive Edge
  | rising
  | falling
  | both
  deriving DecidableEq

/-- hstack((dx, 0))[i] where dx[i] = data[i+1] - data[i] (source line 166): the forward
difference at i, padded with 0 at the last position. -/
def dxRight (d : List ℚ) (i : ℕ) : ℚ :=
  if i + 1 < d.length then d.getD (i+1) 0 - d.getD i 0 else 0

/-- hstack((0, dx))[i]: the backward difference at i, padded with 0 at position 0. -/
def dxLeft (d : List ℚ) (i : ℕ) : ℚ :=
  if i = 0 then 0 else d.getD i 0 - d.getD (i-1) 0

/-- Candidate test of source lines 174-181: the sign pattern of adjacent differences
matching the requested edge semantics. -/
def isCand (d : List ℚ) (edge : Option Edge) (i : ℕ) : Bool :=
  match edge with
  | Option.none => decide (dxRight d i < 0) && decide (0 < dxLeft d i)
  | some Edge.rising => decide (dxRight d i ≤ 0) && decide (0 < dxLeft d i)
  | some Edge.falling => decide (dxRight d i < 0) && decide (0 ≤ dxLeft d i)
  | some Edge.both =>
      (decide (dxRight d i ≤ 0) && decide (0 < dxLeft d i)) ||
      (decide (dxRight d i < 0) && decide (0 ≤ dxLeft d i))

/-- ind = np.unique(np.hstack((ine, ire, ife))) (line 182): all candidate indices,
in increasing order. -/
def candidatesOf (d : List ℚ) (edge : Option Edge) : List ℕ :=
  (List.range d.length).filter (fun i => isCand d edge i)

/-- Line 197: candidates are only kept in [mpd, len(data) - mpd). -/
def borderFilter (n mpd : ℕ) (ind : List ℕ) : List ℕ :=
  ind.filter (fun i => decide (mpd ≤ i) && decide (i < n - mpd))

/-- Lines 208-209: remove candidates with value below mph. -/
def mphFilter (d : List ℚ) (mph : Option ℚ) (ind : List ℕ) : List ℕ :=
  match mph with
  | Option.none => ind
  | some m => ind.filter (fun i => decide (m ≤ d.getD i 0))

/-- Line 219: np.max over the mpd differences data[i] - data[i+k] for k in [-mpd, 0),
i.e. the excess of data[i] over the smallest of the mpd samples to its left. -/
def leftMaxDiff (d : List ℚ) (mpd i : ℕ) : ℚ :=
  ((List.range mpd).map (fun k => d.getD i 0 - d.getD (i - mpd + k) 0)).foldr max
    (d.getD i 0 - d.getD (i - mpd) 0)

/-- Line 224: np.max over the mpd differences data[i] - data[i+k] for k in [1, mpd]. -/
def rightMaxDiff (d : List ℚ) (mpd i : ℕ) : ℚ :=
  ((List.range mpd).map (fun k => d.getD i 0 - d.getD (i + 1 + k) 0)).foldr max
    (d.getD i 0 - d.getD (i + 1) 0)

/-- Lines 214-228: the threshold filter.  The side-specific thresholds default to the
generic one when not positive (lines 215-216); the filter only runs when both effective
thresholds are positive (line 217), deleting first by the left then by the right window.
numpy raises on mpd = 0 (empty vstack), hence the extra 0 < mpd guard; every use in the
source and in the claims has mpd at least 1. -/
def thresholdFilter (d : List ℚ) (mpd : ℕ) (threshold left_threshold right_threshold : ℚ)
    (ind : List ℕ) : List ℕ :=
  let ltEff := if 0 < left_threshold then left_threshold else threshold
  let rtEff := if 0 < right_threshold then right_threshold else threshold
  if 0 < ltEff ∧ 0 < rtEff ∧ 0 < mpd then
    (ind.filter (fun i => decide (ltEff ≤ leftMaxDiff d mpd i))).filter
      (fun i => decide (rtEff ≤ rightMaxDiff d mpd i))
  else ind

/-- The deletion-mask condition of line 238: the candidate at sorted position j is within
mpd of the one at sorted position i (and, when kpsh, strictly lower).  a maps a position
in the height-sorted candidate array to the candidate index, v to its data value. -/
def suppMask (a : ℕ → ℕ) (v : ℕ → ℚ) (mpd : ℕ) (kpsh : Bool) (i j : ℕ) : Bool :=
  decide (a i ≤ a j + mpd) && decide (a j ≤ a i + mpd) &&
    (if kpsh then decide (v j < v i) else true)

/-- One iteration of the suppression loop, lines 235-240. -/
def suppStep (a : ℕ → ℕ) (v : ℕ → ℚ) (mpd : ℕ) (kpsh : Bool) (del : ℕ → Bool) (i : ℕ) :
    ℕ → Bool :=
  if del i then del
  else fun j => if j = i then false else del j || suppMask a v mpd kpsh i j

/-- The final deletion mask idel after the whole loop of lines 234-240. -/
def suppDel (a : ℕ → ℕ) (v : ℕ → ℚ) (mpd : ℕ) (kpsh : Bool) (L : ℕ) : ℕ → Bool :=
  (List.range L).foldl (suppStep a v mpd kpsh) (fun _ => false)

/-- ind[~idel] for a given height-sorted candidate array hsorted: the positions with a
false deletion mask, mapped back to candidate indices. -/
def suppSurvivorsAux (d : List ℚ) (mpd : ℕ) (kpsh : Bool) (hsorted : List ℕ) : List ℕ :=
  ((List.range hsorted.length).filter (fun j =>
    ! suppDel (fun j2 => hsorted.getD j2 0) (fun j2 => d.getD (hsorted.getD j2 0) 0)
      mpd kpsh hsorted.length j)).map (fun j => hsorted.getD j 0)

/-- ind[~idel]: the candidates surviving the suppression loop, still in height order. -/
def suppSurvivors (d : List ℚ) (mpd : ℕ) (kpsh : Bool) (ind : List ℕ) : List ℕ :=
  suppSurvivorsAux d mpd kpsh
    (List.insertionSort (fun i j => d.getD j 0 ≤ d.getD i 0) ind)

/-- Minimum-distance suppression, lines 232-242: sort candidates by decreasing height,
run the deletion loop, keep the survivors sorted back by index. -/
def mpdSuppress (d : List ℚ) (mpd : ℕ) (kpsh : Bool) (ind : List ℕ) : List ℕ :=
  if ind.isEmpty ∨ mpd ≤ 1 then ind
  else List.insertionSort (· ≤ ·) (suppSurvivors d mpd kpsh ind)

/-- np.max(data[item-mpd : item+mpd+1]) of line 244. -/
def windowMax (d : List ℚ) (mpd i : ℕ) : ℚ :=
  listMax (pySlice d (i - mpd) (i + mpd + 1))

/-- Line 244: keep only indices whose value is the maximum of their +-mpd window. -/
def finalFilter (d : List ℚ) (mpd : ℕ) (ind : List ℕ) : List ℕ :=
  ind.filter (fun i => decide (d.getD i 0 = windowMax d mpd i))

/-- detect_peaks after the valley negation, source lines 157-244. -/
def detectPeaksData (d : List ℚ) (mph : Option ℚ) (mpd : ℕ)
    (threshold left_threshold right_threshold : ℚ) (edge : Option Edge) (kpsh : Bool) :
    List ℕ :=
  if d.length < 3 then []
  else
    finalFilter d mpd
      (mpdSuppress d mpd kpsh
        (thresholdFilter d mpd threshold left_threshold right_threshold
          (mphFilter d mph (borderFilter d.length mpd (candidatesOf d edge)))))

/-- detect_peaks, source lines 59-266: valley detection negates the data and mph
(lines 160-163) and then runs the common pipeline. -/
def detect_peaks (x : List ℚ) (mph : Option ℚ) (mpd : ℕ)
    (threshold left_threshold right_threshold : ℚ) (edge : Option Edge)
    (kpsh valley : Bool) : List ℕ :=
  detectPeaksData (if valley then x.map (fun q => -q) else x)
    (if valley then mph.map (fun q => -q) else mph)
    mpd threshold left_threshold right_threshold edge kpsh

/-- The external stationary wavelet transform collaborator (pywt.swt / pywt.iswt),
specialised to a wavelet family; treated as an abstract oracle. -/
structure SwtOracle where
  swt : List ℚ → ℕ → List (List ℚ × List ℚ)
  iswt : List (List ℚ × List ℚ) → List ℚ

/-- step_len = int(0.1*fs), source line 570/797 (idealised exact arithmetic). -/
def stepLen (fs : ℕ) : ℕ := fs / 10

/-- window_radius = int(0.3*fs), source line 571/799. -/
def windowRadius (fs : ℕ) : ℕ := 3 * fs / 10

/-- slice_len = 2*window_radius, source line 572/800. -/
def sliceLen (fs : ℕ) : ℕ := 2 * windowRadius fs

/-- qrs_radius = int(0.1*fs), source line 798. -/
def qrsRadius (fs : ℕ) : ℕ := fs / 10

/-- qrs_levels = [ceil(log2(fs/40)), floor(log2(fs/10))], swapped if out of order,
source lines 592-595 / 826-829. -/
def qrsLevels (fs : ℕ) : ℤ × ℤ :=
  let a := Int.clog 2 ((fs : ℚ) / 40)
  let b := Int.log 2 ((fs : ℚ) / 10)
  if b < a then (b, a) else (a, b)

/-- ecg_levels = [floor(log2(fs/45)), ceil(log2(fs/0.5))], source lines 831-832. -/
def ecgLevels (fs : ℕ) : ℤ × ℤ :=
  (Int.log 2 ((fs : ℚ) / 45), Int.clog 2 ((fs : ℚ) * 2))

/-- tot_level of is_ecg_signal, source line 597. -/
def isEcgTotLevel (fs : ℕ) : ℤ := (qrsLevels fs).2

/-- tot_level of wavelet_denoise, source line 838. -/
def wdTotLevel (fs : ℕ) : ℤ := (ecgLevels fs).2 + 1

/-- Zero-padding of the signal to a multiple of 2^tot, source lines 604-609 / 846-851. -/
def padSignal (s : List ℚ) (tot : ℕ) : List ℚ :=
  let base := 2 ^ tot
  if s.length % base = 0 then s
  else s ++ List.replicate ((s.length / base + 1) * base - s.length) 0

/-- An all-zero coefficient row of the padded length. -/
def zeroRow (n : ℕ) : List ℚ := List.replicate n 0

/-- coeffs = [[zeros, e[1]] for e in pywt.swt(...)], source lines 617-624 / 858-866:
the approximation rows are zeroed, the detail rows kept. -/
def wdCoeffs (o : SwtOracle) (s : List ℚ) (tot : ℕ) : List (List ℚ × List ℚ) :=
  (o.swt (padSignal s tot) tot).map (fun e => (zeroRow (padSignal s tot).length, e.2))

/-- The per-level QRS-band reconstructions, source lines 627-637 / 869-879: for each
level lv in the qrs range, an otherwise-zero stack carrying only that detail row is
inverse-transformed and cut to the signal length.  The set/getD indexing below is total;
in the source it leaves the stack only for fs <= 40, where qrs_levels[0] <= 0 puts
tot_level - lv past the end and line 633/875 raises IndexError — the is_ecg_signal
theorems exclude that region with the hypothesis 0 < qrs_levels[0]. -/
def qrsSignals (o : SwtOracle) (s : List ℚ) (fs : ℕ) (tot : ℤ) : List (List ℚ) :=
  let n := (padSignal s tot.toNat).length
  let coeffs := wdCoeffs o s tot.toNat
  let zc := List.replicate tot.toNat (zeroRow n, zeroRow n)
  let q := qrsLevels fs
  ((List.range (q.2 + 1 - q.1).toNat).map (fun k => q.1 + k)).map (fun lv =>
    (o.iswt (zc.set (tot - lv).toNat
      (zeroRow n, (coeffs.getD (tot - lv).toNat (zeroRow n, zeroRow n)).2))).take s.length)

/-- qrs_power, source line 659 / 901: each reconstruction is sliced by slice_len at both
ends, the slices are summed samplewise and the sum squared. -/
def qrsPower (o : SwtOracle) (s : List ℚ) (fs : ℕ) (tot : ℤ) : List ℚ :=
  let sliced := (qrsSignals o s fs tot).map
    (fun l => pySlice l (sliceLen fs) (l.length - sliceLen fs))
  (match sliced with
   | [] => []
   | h :: t => t.foldl (fun acc l => acc.zipWith (· + ·) l) h).map (fun q => q * q)

/-- qrs_amplitudes, source lines 660-665 / 902-907: max-min swings of windows of radius
window_radius, advanced by step_len while idx < len(power) - window_radius. -/
def qrsAmplitudes (power : List ℚ) (fs : ℕ) : List ℚ :=
  let wr := windowRadius fs
  let step := stepLen fs
  let cnt := if step = 0 then 0 else (power.length - 2 * wr + step - 1) / step
  (List.range cnt).map (fun k =>
    let seg := pySlice power (wr + k * step - wr) (wr + k * step + wr + 1)
    listMax seg - listMin seg)

/-- np.percentile with the default linear interpolation, as a total function on
nonempty lists.  numpy raises on the empty list: is_ecg_signal models that raise
explicitly (its envelope amplitude list can be empty for guard-passing signals), while
inside wavelet_denoise the stronger length guard 2^tot_level >= 4*fs > 6*window_radius
keeps the envelope amplitude list nonempty for any length-preserving transform, and a
succeeding classification forces at least one detected beat, so the percentile
arguments there are nonempty on every real run. -/
def percentile (l : List ℚ) (p : ℚ) : ℚ :=
  let psorted := List.insertionSort (· ≤ ·) l
  if psorted.isEmpty then 0
  else
    let pos := p * ((psorted.length : ℚ) - 1) / 100
    let k := (⌊pos⌋).toNat
    psorted.getD k 0 + (pos - (k : ℚ)) * (psorted.getD (k+1) 0 - psorted.getD k 0)

/-- qrs_amp = np.percentile(qrs_amplitudes, 50) * 0.5, source line 666 / 908. -/
def qrsAmpThr (o : SwtOracle) (s : List ℚ) (fs : ℕ) (tot : ℤ) : ℚ :=
  percentile (qrsAmplitudes (qrsPower o s fs tot) fs) 50 * (1/2)

/-- raw_r_peaks, source lines 671-676 / 913-918: detect_peaks on the power envelope with
mpd = step_len and threshold = qrs_amp, all other parameters at their defaults. -/
def rawRPeaks (o : SwtOracle) (s : List ℚ) (fs : ℕ) (tot : ℤ) : List ℕ :=
  detect_peaks (qrsPower o s fs tot) Option.none (stepLen fs) (qrsAmpThr o s fs tot) 0 0
    (some Edge.rising) false false

/-- The reasonable-band test of source line 723 / 965: the number of detected beats
corresponds to an average RR interval in [300, 1500] ms (40-200 bpm), with
spacing = 1000/fs ms per sample. -/
def reasonableCount (o : SwtOracle) (s : List ℚ) (fs : ℕ) (tot : ℤ) : Prop :=
  (1000 : ℚ) / fs * ((qrsPower o s fs tot).length : ℚ) / 1500 ≤
      ((rawRPeaks o s fs tot).length : ℚ) ∧
    ((rawRPeaks o s fs tot).length : ℚ) ≤
      (1000 : ℚ) / fs * ((qrsPower o s fs tot).length : ℚ) / 300

/-- The valid-band test of source line 725 / 967: average RR in [200, 3000] ms. -/
def validCount (o : SwtOracle) (s : List ℚ) (fs : ℕ) (tot : ℤ) : Prop :=
  (1000 : ℚ) / fs * ((qrsPower o s fs tot).length : ℚ) / 3000 ≤
      ((rawRPeaks o s fs tot).length : ℚ) ∧
    ((rawRPeaks o s fs tot).length : ℚ) ≤
      (1000 : ℚ) / fs * ((qrsPower o s fs tot).length : ℚ) / 200

instance decReasonableCount (o : SwtOracle) (s : List ℚ) (fs : ℕ) (tot : ℤ) :
    Decidable (reasonableCount o s fs tot) :=
  inferInstanceAs (Decidable (_ ∧ _))

instance decValidCount (o : SwtOracle) (s : List ℚ) (fs : ℕ) (tot : ℤ) :
    Decidable (validCount o s fs tot) :=
  inferInstanceAs (Decidable (_ ∧ _))

/-- is_ecg_confidence after criteria 1, source lines 722-727 / 964-969: +1.0 when the
beat count lies in the reasonable band (RR in [300,1500] ms), else +0.4 in the valid band
(RR in [200,3000] ms), else 0.  Criteria 2 and 3 are unimplemented in the source. -/
def confidence (o : SwtOracle) (s : List ℚ) (fs : ℕ) (tot : ℤ) : ℚ :=
  if reasonableCount o s fs tot then 1
  else if validCount o s fs tot then 2/5
  else 0

/-- is_ecg_signal, source lines 544-740: immediately false when the signal is shorter
than 2^tot_level; when the guard passes but the sliced envelope is too short to yield a
single amplitude window (len(qrs_power) <= 2*window_radius, i.e.
len(signal) <= 6*window_radius for a length-preserving transform), line 666 applies
np.percentile to the empty amplitude list and raises IndexError, modelled here with
Except.error; otherwise the verdict is true iff the accumulated confidence
reaches 1.0. -/
def is_ecg_signal (o : SwtOracle) (s : List ℚ) (fs : ℕ) : Except String Bool :=
  if ((s.length : ℚ)) < (2:ℚ) ^ isEcgTotLevel fs then Except.ok false
  else if (qrsAmplitudes (qrsPower o s fs (isEcgTotLevel fs)) fs).isEmpty then
    Except.error "cannot do a non-empty take from an empty axes."
  else Except.ok (decide (1 ≤ confidence o s fs (isEcgTotLevel fs)))

/-- The amplify_mode enumeration of wavelet_denoise.  The upfront membership validation
of source lines 783-785 cannot fail on this closed enumeration. -/
inductive AmplifyMode
  | ecg
  | qrs
  | all
  | none
  deriving DecidableEq

/-- The sides_mode enumeration; interp is a member of the accepted list of source
lines 786-788 and only fails later, at line 1031. -/
inductive SidesMode
  | nearest
  | mirror
  | wrap
  | constant
  | no_slicing
  | interp
  deriving DecidableEq

/-- The WaveletDenoiseResult namedtuple of source lines 53-56.  The float NaN stored in
amplified_ratio by the non-ECG branch is modelled as Option.none. -/
structure WaveletDenoiseResult where
  is_ecg : Bool
  amplified_ratio : Option ℚ
  amplified_signal : List ℚ
  raw_r_peaks : List ℕ
  side_len : ℕ
  wavelet_name : String
  wavelet_coeffs : List (List ℚ × List ℚ)
  deriving DecidableEq

/-- Python round(): nearest integer, ties to the even one (int(round(n)), line 1014). -/
def pyRound (q : ℚ) : ℤ :=
  if q - ⌊q⌋ < 1/2 then ⌊q⌋
  else if 1/2 < q - ⌊q⌋ then ⌊q⌋ + 1
  else if ⌊q⌋ % 2 = 0 then ⌊q⌋ else ⌊q⌋ + 1

/-- The 75th percentile of the per-beat amplitude swings measured on the input signal in
windows of radius qrs_radius around the shifted beat positions, source lines 983-990. -/
def wdQrsAmp (o : SwtOracle) (s : List ℚ) (fs : ℕ) : ℚ :=
  percentile
    (((rawRPeaks o s fs (wdTotLevel fs)).map (fun p => p + sliceLen fs)).map (fun r =>
      let seg := pySlice s (r - qrsRadius fs) (r + qrsRadius fs + 1)
      listMax seg - listMin seg)) 75

/-- amplify_ratio, source lines 991-994: standard/amp when the measured amplitude is
below the amplification threshold, else 1.0. -/
def wdRatio (o : SwtOracle) (s : List ℚ) (fs : ℕ) (std thr : ℚ) : ℚ :=
  if wdQrsAmp o s fs < thr then std / wdQrsAmp o s fs else 1

/-- levels_in_use, source lines 1000-1005.  The none case is unreachable (the amplifying
branch requires amplify_mode different from none; Python leaves the variable unbound). -/
def levelsInUse (fs : ℕ) (mode : AmplifyMode) : ℤ × ℤ :=
  match mode with
  | AmplifyMode.ecg => ((ecgLevels fs).1, (ecgLevels fs).2 - 2)
  | AmplifyMode.qrs => ((qrsLevels fs).1 - 1, (qrsLevels fs).2 + 1)
  | AmplifyMode.all => (1, (ecgLevels fs).2 + 1)
  | AmplifyMode.none => (0, 0)

/-- The rounded amplified reconstruction, source lines 996-1014: scale the detail rows of
the levels in use by the ratio, inverse-transform the full stack, cut to the signal
length and round every sample to an integer.  wavelet_denoise evaluates this only under
its level-range guard (levels_in_use[0] >= 1, or an empty range); there every index
tot_level - lv lies inside the stack — the upper end always does, since
levels_in_use[1] - 1 <= tot_level for every mode and fs — so the set/getD accesses
below are exact, never silent no-ops.  Below the guard the source raises IndexError at
line 1010 instead, which wavelet_denoise models as an error before reaching this
function. -/
def wdRecon (o : SwtOracle) (s : List ℚ) (fs : ℕ) (mode : AmplifyMode) (std thr : ℚ) :
    List ℚ :=
  let tot := wdTotLevel fs
  let n := (padSignal s tot.toNat).length
  let coeffs := wdCoeffs o s tot.toNat
  let ratio := wdRatio o s fs std thr
  let lu := levelsInUse fs mode
  let c2 := ((List.range (lu.2 - lu.1).toNat).map (fun k => lu.1 + k)).foldl
    (fun c lv => c.set (tot - lv).toNat
      (zeroRow n, (coeffs.getD (tot - lv).toNat (zeroRow n, zeroRow n)).2.map
        (fun q => ratio * q)))
    coeffs
  ((o.iswt c2).take s.length).map (fun q => ((pyRound q : ℤ) : ℚ))

/-- Helper recursion for numpy slice assignment: overwrite positions [a, b) with f. -/
def overwriteAux (f : ℕ → ℚ) (a b : ℕ) : ℕ → List ℚ → List ℚ
  | _, [] => []
  | i, v :: t => (if a ≤ i ∧ i < b then f i else v) :: overwriteAux f a b (i+1) t

/-- Overwrite positions [a, b) of l with f i (models numpy slice assignment). -/
def overwrite (l : List ℚ) (a b : ℕ) (f : ℕ → ℚ) : List ℚ := overwriteAux f a b 0 l

/-- Boundary correction, source lines 1017-1032: the first and last slice_len samples are
rewritten according to sides_mode; interp raises.  The two slice assignments are applied
sequentially, the second reading the state left by the first, exactly as in numpy. -/
def sidesApply (mode : SidesMode) (cval : ℤ) (slice : ℕ) (l : List ℚ) :
    Except String (List ℚ) :=
  match mode with
  | SidesMode.nearest =>
      let a := overwrite l 0 slice (fun _ => l.getD slice 0)
      Except.ok (overwrite a (l.length - slice) l.length
        (fun _ => a.getD (l.length - slice - 1) 0))
  | SidesMode.mirror =>
      let a := overwrite l 0 slice (fun i => l.getD (2*slice - 1 - i) 0)
      Except.ok (overwrite a (l.length - slice) l.length
        (fun i => a.getD (l.length - slice - 1 - (i - (l.length - slice))) 0))
  | SidesMode.wrap =>
      let a := overwrite l 0 slice
        (fun i => l.getD (l.length - 2*slice + i) 0 + (l.getD slice 0 - l.getD (slice - 1) 0))
      Except.ok (overwrite a (l.length - slice) l.length
        (fun i => a.getD (slice + (i - (l.length - slice))) 0 +
          (a.getD (l.length - slice) 0 - a.getD (l.length - slice - 1) 0)))
  | SidesMode.constant =>
      let a := overwrite l 0 slice (fun _ => (cval : ℚ))
      Except.ok (overwrite a (l.length - slice) l.length (fun _ => (cval : ℚ)))
  | SidesMode.no_slicing => Except.ok l
  | SidesMode.interp =>
      Except.error "Invalid sides_mode! sides_mode interp not implemented yet!"

/-- wavelet_denoise, source lines 743-1073.  Fallible Python control flow is modelled
with Except: in the amplification branch, when levels_in_use[0] <= 0 with a nonempty
level range (amplify_mode ecg at fs <= 89, qrs at fs <= 80), the first loop iteration of
lines 1009-1010 indexes c_[tot_level - lv] past the coefficient stack and raises
IndexError before any write; otherwise the reconstruction proceeds and the interp side
mode raises at line 1031. -/
def wavelet_denoise (o : SwtOracle) (s : List ℚ) (fs : ℕ) (wavelet_name : String)
    (amplify_mode : AmplifyMode) (sides_mode : SidesMode) (cval : ℤ)
    (standard_ecg_amplitude need_amplification_threshold : ℚ) :
    Except String WaveletDenoiseResult :=
  let tot := wdTotLevel fs
  let slice := sliceLen fs
  if ((s.length : ℚ)) < (2:ℚ) ^ tot then
    Except.ok ⟨false, some 1, s, [], slice, wavelet_name, []⟩
  else
    let raw := o.swt (padSignal s tot.toNat) tot.toNat
    let shifted := (rawRPeaks o s fs tot).map (fun p => p + slice)
    if 1 ≤ confidence o s fs tot then
      let ratio := wdRatio o s fs standard_ecg_amplitude need_amplification_threshold
      if amplify_mode ≠ AmplifyMode.none ∧ 1 < ratio then
        if (levelsInUse fs amplify_mode).1 ≤ 0 ∧
            (levelsInUse fs amplify_mode).1 < (levelsInUse fs amplify_mode).2 then
          Except.error "list index out of range"
        else
          match sidesApply sides_mode cval slice
              (wdRecon o s fs amplify_mode standard_ecg_amplitude
                need_amplification_threshold) with
          | Except.error e => Except.error e
          | Except.ok sig =>
              Except.ok ⟨true, some ratio, sig, shifted, slice, wavelet_name, raw⟩
      else Except.ok ⟨true, some ratio, s, shifted, slice, wavelet_name, raw⟩
    else Except.ok ⟨false, Option.none, s, shifted, slice, wavelet_name, raw⟩

/-- True exactly on the non-raising outcomes of wavelet_denoise. -/
def resultOk (e : Except String WaveletDenoiseResult) : Bool :=
  match e with
  | Except.ok _ => true
  | Except.error _ => false

instance instDecEqExcept {ε α : Type} [DecidableEq ε] [DecidableEq α] :
    DecidableEq (Except ε α) := fun a b =>
  match a, b with
  | Except.error e1, Except.error e2 => decidable_of_iff (e1 = e2) (by simp)
  | Except.error _, Except.ok _ => isFalse (fun hc => Except.noConfusion hc)
  | Except.ok _, Except.error _ => isFalse (fun hc => Except.noConfusion hc)
  | Except.ok x, Except.ok y => decidable_of_iff (x = y) (by simp)

/-- An oracle that returns empty arrays; used for short-signal instances where the
transform output is irrelevant. -/
def oEmpty : SwtOracle := ⟨fun _ _ => [], fun _ => []⟩

/-- Concrete 256-sample signal at fs = 41 Hz (tot_level 8, base length 256): two spikes
of height 100 at positions 54 and 84, the shifted beat positions of the scenario. -/
def sW : List ℚ := (List.range 256).map (fun j => if j = 54 ∨ j = 84 then (100:ℚ) else 0)

/-- Concrete inverse-transform output for the QRS-band calls: spikes of height 1 at
positions 54 and 84, giving the power envelope two clean beats. -/
def qShort : List ℚ := (List.range 144).map (fun j => if j = 54 ∨ j = 84 then (1:ℚ) else 0)

/-- Concrete inverse-transform output for the final reconstruction call. -/
def qRec : List ℚ := List.replicate 256 (7:ℚ)

/-- A concrete oracle: the forward transform returns 8 rows with zero approximations and
all-one details; the inverse transform distinguishes the QRS-band stacks (whose detail
row 1 is zero) from the amplified full stack (whose detail row 1 has been scaled). -/
def oW : SwtOracle :=
  ⟨fun _ _ => List.replicate 8 (List.replicate 256 (0:ℚ), List.replicate 256 (1:ℚ)),
   fun c => if (c.getD 1 ([], [])).2.headD 0 ≠ 0 then qRec else qShort⟩

/-- The full result of the concrete amplify_mode = none run on oW and sW. -/
def rW : WaveletDenoiseResult :=
  ⟨true, some 11, sW, [54, 84], 24, "db6",
    List.replicate 8 (List.replicate 256 (0:ℚ), List.replicate 256 (1:ℚ))⟩

/-- A constant oracle whose inverse transform always returns 76 ones; it makes the
classification power envelope constant, a clean instance with a nonempty amplitude
list and zero detected beats. -/
def oC2 : SwtOracle := ⟨fun _ _ => [], fun _ => List.replicate 76 (1:ℚ)⟩

/-- A 76-sample zero signal at fs = 41: long enough for the depth-2 classification
pipeline (76 >= 4), with a 28-sample envelope yielding one amplitude window
(28 > 2*window_radius = 24). -/
def sC2 : List ℚ := List.replicate 76 (0:ℚ)

/-! General helper lemmas. -/

theorem le_foldr_max {l : List ℚ} {q : ℚ} (init : ℚ) (h : q ∈ l) : q ≤ l.foldr max init := by
  induction l with
  | nil => cases h
  | cons a t ih =>
    rcases List.mem_cons.1 h with rfl | ht
    · exact le_max_left _ _
    · exact le_trans (ih ht) (le_max_right _ _)

theorem le_listMax {l : List ℚ} {q : ℚ} (h : q ∈ l) : q ≤ listMax l := le_foldr_max _ h

theorem getD_eq_getElem_of_lt {α : Type} (l : List α) (d0 : α) {i : ℕ} (h : i < l.length) :
    l.getD i d0 = l[i] := by
  rw [List.getD_eq_getElem?_getD, List.getElem?_eq_getElem h]
  rfl

theorem getD_mem_pySlice (d : List ℚ) {a b j : ℕ} (h1 : a ≤ j) (h2 : j < b)
    (h3 : j < d.length) : d.getD j 0 ∈ pySlice d a b := by
  have hlt : j - a < b - a := by omega
  have hsome : (pySlice d a b)[j - a]? = some d[j] := by
    unfold pySlice
    rw [List.getElem?_take, if_pos hlt, List.getElem?_drop]
    have hj : a + (j - a) = j := by omega
    rw [hj, List.getElem?_eq_getElem h3]
  rw [getD_eq_getElem_of_lt d 0 h3]
  exact List.getElem?_mem hsome

theorem getD_map_neg (x : List ℚ) (i : ℕ) :
    (x.map (fun q => -q)).getD i 0 = -(x.getD i 0) := by
  rw [List.getD_eq_getElem?_getD, List.getD_eq_getElem?_getD, List.getElem?_map]
  cases x[i]? <;> simp

theorem foldl_range_succ {α : Type} (f : α → ℕ → α) (i : α) (k : ℕ) :
    (List.range (k+1)).foldl f i = f ((List.range k).foldl f i) k := by
  rw [List.range_succ, List.foldl_append, List.foldl_cons, List.foldl_nil]

/-! Stage lemmas for detect_peaks. -/

theorem candidatesOf_pairwise (d : List ℚ) (edge : Option Edge) :
    (candidatesOf d edge).Pairwise (· < ·) :=
  List.Pairwise.sublist (List.filter_sublist _) (List.pairwise_lt_range _)

theorem borderFilter_props {n mpd : ℕ} {ind : List ℕ} {i : ℕ}
    (h : i ∈ borderFilter n mpd ind) : i ∈ ind ∧ mpd ≤ i ∧ i < n - mpd := by
  unfold borderFilter at h
  rw [List.mem_filter] at h
  have h2 := h.2
  simp only [Bool.and_eq_true, decide_eq_true_eq] at h2
  exact ⟨h.1, h2.1, h2.2⟩

theorem mphFilter_sublist (d : List ℚ) (mph : Option ℚ) (ind : List ℕ) :
    List.Sublist (mphFilter d mph ind) ind := by
  cases mph with
  | none => exact List.Sublist.refl _
  | some m => exact List.filter_sublist _

theorem thresholdFilter_sublist (d : List ℚ) (mpd : ℕ) (thr ltr rtr : ℚ) (ind : List ℕ) :
    List.Sublist (thresholdFilter d mpd thr ltr rtr ind) ind := by
  unfold thresholdFilter
  by_cases h : 0 < (if 0 < ltr then ltr else thr) ∧ 0 < (if 0 < rtr then rtr else thr) ∧
      0 < mpd
  · rw [if_pos h]
    exact (List.filter_sublist _).trans (List.filter_sublist _)
  · rw [if_neg h]

theorem suppSurvivorsAux_subset (d : List ℚ) (mpd : ℕ) (kpsh : Bool) {hs : List ℕ}
    {y : ℕ} (h : y ∈ suppSurvivorsAux d mpd kpsh hs) : y ∈ hs := by
  simp only [suppSurvivorsAux, List.mem_map, List.mem_filter, List.mem_range] at h
  obtain ⟨j, ⟨hj, _⟩, rfl⟩ := h
  rw [getD_eq_getElem_of_lt _ _ hj]
  exact List.getElem_mem _

theorem suppSurvivorsAux_nodup (d : List ℚ) (mpd : ℕ) (kpsh : Bool) {hs : List ℕ}
    (hnd : hs.Nodup) : (suppSurvivorsAux d mpd kpsh hs).Nodup := by
  apply List.Nodup.map_on
  · intro j1 h1 j2 h2 heq
    simp only [List.mem_filter, List.mem_range] at h1 h2
    rw [getD_eq_getElem_of_lt _ _ h1.1, getD_eq_getElem_of_lt _ _ h2.1] at heq
    exact (List.Nodup.getElem_inj_iff hnd).1 heq
  · exact (List.nodup_range _).filter _

theorem suppStep_of_del_true (a : ℕ → ℕ) (v : ℕ → ℚ) (mpd : ℕ) (kpsh : Bool)
    (del : ℕ → Bool) (i : ℕ) (h : del i = true) : suppStep a v mpd kpsh del i = del := by
  unfold suppStep
  rw [if_pos h]

theorem suppStep_apply_false (a : ℕ → ℕ) (v : ℕ → ℚ) (mpd : ℕ) (kpsh : Bool)
    (del : ℕ → Bool) (i j : ℕ) (h : del i = false) :
    suppStep a v mpd kpsh del i j =
      if j = i then false else del j || suppMask a v mpd kpsh i j := by
  unfold suppStep
  rw [if_neg (by rw [h]; exact Bool.false_ne_true)]

theorem suppDelPrefix_far (a : ℕ → ℕ) (v : ℕ → ℚ) (mpd : ℕ) :
    ∀ (k : ℕ) (j1 : ℕ), j1 < k →
      ((List.range k).foldl (suppStep a v mpd false) (fun _ => false)) j1 = false →
      ∀ j2, j2 ≠ j1 →
        ((List.range k).foldl (suppStep a v mpd false) (fun _ => false)) j2 = true ∨
          a j1 + mpd < a j2 ∨ a j2 + mpd < a j1 := by
  intro k
  induction k with
  | zero => intro j1 h; omega
  | succ k ih =>
    intro j1 hj1 hkept j2 hne
    rw [foldl_range_succ] at hkept ⊢
    by_cases hDk : ((List.range k).foldl (suppStep a v mpd false) (fun _ => false)) k = true
    · rw [suppStep_of_del_true _ _ _ _ _ _ hDk] at hkept ⊢
      have hj1k : j1 ≠ k := by
        intro h
        rw [h, hDk] at hkept
        cases hkept
      exact ih j1 (by omega) hkept j2 hne
    · have hDkf : ((List.range k).foldl (suppStep a v mpd false) (fun _ => false)) k
          = false := Bool.eq_false_iff.2 hDk
      rw [suppStep_apply_false _ _ _ _ _ _ _ hDkf] at hkept
      rw [suppStep_apply_false _ _ _ _ _ _ _ hDkf]
      by_cases hj1k : j1 = k
      · subst hj1k
        rw [if_neg hne]
        by_cases hmask : suppMask a v mpd false j1 j2 = true
        · left
          rw [hmask, Bool.or_true]
        · right
          unfold suppMask at hmask
          rw [if_neg Bool.false_ne_true] at hmask
          simp only [Bool.and_true, Bool.and_eq_true, decide_eq_true_eq] at hmask
          omega
      · rw [if_neg hj1k] at hkept
        have hD1 : ((List.range k).foldl (suppStep a v mpd false) (fun _ => false)) j1
            = false := (Bool.or_eq_false_iff.1 hkept).1
        rcases ih j1 (by omega) hD1 j2 hne with hDel | hfar
        · by_cases hj2k : j2 = k
          · rw [hj2k] at hDel
            rw [hDel] at hDkf
            cases hDkf
          · left
            rw [if_neg hj2k, hDel, Bool.true_or]
        · right
          exact hfar

theorem suppSurvivorsAux_far (d : List ℚ) (mpd : ℕ) {hs : List ℕ} {y z : ℕ}
    (hy : y ∈ suppSurvivorsAux d mpd false hs) (hz : z ∈ suppSurvivorsAux d mpd false hs)
    (hne : y ≠ z) : y + mpd < z ∨ z + mpd < y := by
  simp only [suppSurvivorsAux, List.mem_map, List.mem_filter, List.mem_range,
    Bool.not_eq_true'] at hy hz
  obtain ⟨j1, ⟨hj1, hk1⟩, hy2⟩ := hy
  obtain ⟨j2, ⟨hj2, hk2⟩, hz2⟩ := hz
  have hne12 : j2 ≠ j1 := by
    intro h
    subst h
    exact hne (hy2 ▸ hz2 ▸ rfl)
  have hmain := suppDelPrefix_far (fun j => hs.getD j 0) (fun j => d.getD (hs.getD j 0) 0)
    mpd hs.length j1 hj1 hk1 j2 hne12
  rcases hmain with hDel | hfar
  · rw [suppDel] at hk2
    rw [hDel] at hk2
    cases hk2
  · rw [← hy2, ← hz2]
    exact hfar

theorem mpdSuppress_subset (d : List ℚ) (mpd : ℕ) (kpsh : Bool) (ind : List ℕ) {y : ℕ}
    (h : y ∈ mpdSuppress d mpd kpsh ind) : y ∈ ind := by
  unfold mpdSuppress at h
  split at h
  · exact h
  · have h1 := (List.perm_insertionSort (· ≤ ·) _).mem_iff.1 h
    have h2 := suppSurvivorsAux_subset d mpd kpsh h1
    exact (List.perm_insertionSort _ ind).mem_iff.1 h2

theorem mpdSuppress_pairwise (d : List ℚ) (mpd : ℕ) (kpsh : Bool) (ind : List ℕ)
    (h : ind.Pairwise (· < ·)) : (mpdSuppress d mpd kpsh ind).Pairwise (· < ·) := by
  unfold mpdSuppress
  split
  · exact h
  · have hnd : ind.Nodup := h.imp (fun hab => Nat.ne_of_lt hab)
    have hnd2 : (List.insertionSort (fun i j => d.getD j 0 ≤ d.getD i 0) ind).Nodup :=
      ((List.perm_insertionSort _ ind).nodup_iff).2 hnd
    have hnd3 := suppSurvivorsAux_nodup d mpd kpsh hnd2
    have hnd4 : (List.insertionSort (· ≤ ·) (suppSurvivors d mpd kpsh ind)).Nodup :=
      ((List.perm_insertionSort _ _).nodup_iff).2 hnd3
    exact List.Sorted.lt_of_le (List.sorted_insertionSort _ _) hnd4

theorem mpdSuppress_far (d : List ℚ) (mpd : ℕ) (ind : List ℕ) {y z : ℕ} (hm : 2 ≤ mpd)
    (hy : y ∈ mpdSuppress d mpd false ind) (hz : z ∈ mpdSuppress d mpd false ind)
    (hne : y ≠ z) : y + mpd < z ∨ z + mpd < y := by
  by_cases hguard : ind.isEmpty = true ∨ mpd ≤ 1
  · rcases hguard with hemp | hle
    · unfold mpdSuppress at hy
      rw [if_pos (Or.inl hemp)] at hy
      rw [List.isEmpty_iff] at hemp
      subst hemp
      cases hy
    · omega
  · unfold mpdSuppress at hy hz
    rw [if_neg hguard] at hy hz
    have hy2 := (List.perm_insertionSort (· ≤ ·) _).mem_iff.1 hy
    have hz2 := (List.perm_insertionSort (· ≤ ·) _).mem_iff.1 hz
    exact suppSurvivorsAux_far d mpd hy2 hz2 hne

theorem windowMax_close_eq (d : List ℚ) (mpd : ℕ) {i j : ℕ}
    (hi : d.getD i 0 = windowMax d mpd i) (hj : d.getD j 0 = windowMax d mpd j)
    (hbi1 : mpd ≤ i) (hbi2 : i < d.length - mpd) (hbj1 : mpd ≤ j) (hbj2 : j < d.length - mpd)
    (hc1 : j ≤ i + mpd) (hc2 : i ≤ j + mpd) : d.getD i 0 = d.getD j 0 := by
  have hjlen : j < d.length := by omega
  have hilen : i < d.length := by omega
  have h1 : d.getD j 0 ∈ pySlice d (i - mpd) (i + mpd + 1) :=
    getD_mem_pySlice d (by omega) (by omega) hjlen
  have h2 : d.getD i 0 ∈ pySlice d (j - mpd) (j + mpd + 1) :=
    getD_mem_pySlice d (by omega) (by omega) hilen
  have hle1 : d.getD j 0 ≤ d.getD i 0 := by
    rw [hi]
    exact le_listMax h1
  have hle2 : d.getD i 0 ≤ d.getD j 0 := by
    rw [hj]
    exact le_listMax h2
  exact le_antisymm hle2 hle1

theorem detectPeaksData_invariants (d : List ℚ) (mph : Option ℚ) (mpd : ℕ)
    (thr ltr rtr : ℚ) (edge : Option Edge) (kpsh : Bool) (hm : 1 ≤ mpd) :
    (detectPeaksData d mph mpd thr ltr rtr edge kpsh).Pairwise (· < ·) ∧
    (∀ i ∈ detectPeaksData d mph mpd thr ltr rtr edge kpsh, mpd ≤ i ∧ i < d.length - mpd) ∧
    (∀ i ∈ detectPeaksData d mph mpd thr ltr rtr edge kpsh,
      ∀ j ∈ detectPeaksData d mph mpd thr ltr rtr edge kpsh, i ≠ j →
        mpd ≤ max i j - min i j ∨ (kpsh = true ∧ d.getD i 0 = d.getD j 0)) := by
  by_cases hlen : d.length < 3
  · rw [detectPeaksData, if_pos hlen]
    refine ⟨List.Pairwise.nil, ?_, ?_⟩
    · intro i hi
      cases hi
    · intro i hi
      cases hi
  · have hres : detectPeaksData d mph mpd thr ltr rtr edge kpsh =
        finalFilter d mpd
          (mpdSuppress d mpd kpsh
            (thresholdFilter d mpd thr ltr rtr
              (mphFilter d mph (borderFilter d.length mpd (candidatesOf d edge))))) := by
      rw [detectPeaksData, if_neg hlen]
    rw [hres]
    have hp1 : (borderFilter d.length mpd (candidatesOf d edge)).Pairwise (· < ·) :=
      List.Pairwise.sublist (List.filter_sublist _) (candidatesOf_pairwise d edge)
    have hp2 : (mphFilter d mph (borderFilter d.length mpd (candidatesOf d edge))).Pairwise
        (· < ·) := List.Pairwise.sublist (mphFilter_sublist _ _ _) hp1
    have hp3 : (thresholdFilter d mpd thr ltr rtr
        (mphFilter d mph (borderFilter d.length mpd (candidatesOf d edge)))).Pairwise
        (· < ·) := List.Pairwise.sublist (thresholdFilter_sublist _ _ _ _ _ _) hp2
    have hp4 := mpdSuppress_pairwise d mpd kpsh _ hp3
    have hres_sub : ∀ y ∈ finalFilter d mpd
        (mpdSuppress d mpd kpsh
          (thresholdFilter d mpd thr ltr rtr
            (mphFilter d mph (borderFilter d.length mpd (candidatesOf d edge))))),
        y ∈ mpdSuppress d mpd kpsh
          (thresholdFilter d mpd thr ltr rtr
            (mphFilter d mph (borderFilter d.length mpd (candidatesOf d edge)))) := by
      intro y hy
      exact (List.mem_filter.1 hy).1
    have hborder : ∀ y ∈ finalFilter d mpd
        (mpdSuppress d mpd kpsh
          (thresholdFilter d mpd thr ltr rtr
            (mphFilter d mph (borderFilter d.length mpd (candidatesOf d edge))))),
        mpd ≤ y ∧ y < d.length - mpd := by
      intro y hy
      have h1 := mpdSuppress_subset d mpd kpsh _ (hres_sub y hy)
      have h2 := (thresholdFilter_sublist d mpd thr ltr rtr _).subset h1
      have h3 := (mphFilter_sublist d mph _).subset h2
      exact (borderFilter_props h3).2
    refine ⟨List.Pairwise.sublist (List.filter_sublist _) hp4, hborder, ?_⟩
    intro i hi j hj hne
    by_cases hfar : mpd ≤ max i j - min i j
    · exact Or.inl hfar
    · push_neg at hfar
      have hc1 : j ≤ i + mpd := by omega
      have hc2 : i ≤ j + mpd := by omega
      cases kpsh with
      | false =>
        exfalso
        rcases Nat.lt_or_ge mpd 2 with h2 | h2
        · omega
        · rcases mpdSuppress_far d mpd _ h2 (hres_sub i hi) (hres_sub j hj) hne with h | h <;>
            omega
      | true =>
        right
        refine ⟨rfl, ?_⟩
        have hfi := (List.mem_filter.1 hi).2
        have hfj := (List.mem_filter.1 hj).2
        rw [decide_eq_true_eq] at hfi hfj
        have hbi := hborder i hi
        have hbj := hborder j hj
        exact windowMax_close_eq d mpd hfi hfj hbi.1 hbi.2 hbj.1 hbj.2 hc1 hc2

/-! Claim theorems. -/

/-- C1: for every signal and every mpd at least 1, the index array returned by
detect_peaks is strictly increasing, every returned index lies within [0, len(x)), and
no two returned indices are closer than mpd apart unless kpsh is enabled and the two
indexed samples have exactly equal value. -/
theorem detect_peaks_invariants (x : List ℚ) (mph : Option ℚ) (mpd : ℕ)
    (threshold left_threshold right_threshold : ℚ) (edge : Option Edge)
    (kpsh valley : Bool) (hm : 1 ≤ mpd) :
    (detect_peaks x mph mpd threshold left_threshold right_threshold edge
      kpsh valley).Pairwise (· < ·) ∧
    (∀ i ∈ detect_peaks x mph mpd threshold left_threshold right_threshold edge kpsh valley,
      i < x.length) ∧
    (∀ i ∈ detect_peaks x mph mpd threshold left_threshold right_threshold edge kpsh valley,
      ∀ j ∈ detect_peaks x mph mpd threshold left_threshold right_threshold edge kpsh valley,
        i ≠ j → mpd ≤ max i j - min i j ∨ (kpsh = true ∧ x.getD i 0 = x.getD j 0)) := by
  have base := detectPeaksData_invariants (if valley then x.map (fun q => -q) else x)
    (if valley then mph.map (fun q => -q) else mph) mpd threshold left_threshold
    right_threshold edge kpsh hm
  have hdlen : (if valley then x.map (fun q => -q) else x).length = x.length := by
    cases valley <;> simp
  refine ⟨base.1, ?_, ?_⟩
  · intro i hi
    have h1 := (base.2.1 i hi).2
    omega
  · intro i hi j hj hne
    rcases base.2.2 i hi j hj hne with h | ⟨hk, heq⟩
    · exact Or.inl h
    · refine Or.inr ⟨hk, ?_⟩
      cases valley with
      | false => exact heq
      | true =>
        simp only [if_true] at heq
        rw [getD_map_neg, getD_map_neg] at heq
        exact neg_injective heq

/-- C1 witness: the invariants instantiated at the concrete height-pattern signal with
mpd = 2. -/
theorem detect_peaks_invariants_witness :
    1 ≤ 2 ∧
    (((detect_peaks [0,1,0,2,0,3,0,2,0,1,0] Option.none 2 0 0 0 (some Edge.rising)
        false false).Pairwise (· < ·)) ∧
      (∀ i ∈ detect_peaks [0,1,0,2,0,3,0,2,0,1,0] Option.none 2 0 0 0 (some Edge.rising)
          false false, i < ([0,1,0,2,0,3,0,2,0,1,0] : List ℚ).length) ∧
      (∀ i ∈ detect_peaks [0,1,0,2,0,3,0,2,0,1,0] Option.none 2 0 0 0 (some Edge.rising)
          false false,
        ∀ j ∈ detect_peaks [0,1,0,2,0,3,0,2,0,1,0] Option.none 2 0 0 0 (some Edge.rising)
            false false, i ≠ j →
          2 ≤ max i j - min i j ∨
            (false = true ∧ ([0,1,0,2,0,3,0,2,0,1,0] : List ℚ).getD i 0 =
              ([0,1,0,2,0,3,0,2,0,1,0] : List ℚ).getD j 0))) :=
  ⟨by omega,
    detect_peaks_invariants [0,1,0,2,0,3,0,2,0,1,0] Option.none 2 0 0 0
      (some Edge.rising) false false (by omega)⟩

/-- C6: valley detection is exactly peak detection on the negated signal with mph
negated, all other parameters identical (source lines 160-163). -/
theorem detect_peaks_valley_negation (x : List ℚ) (mph : Option ℚ) (mpd : ℕ)
    (threshold left_threshold right_threshold : ℚ) (edge : Option Edge) (kpsh : Bool) :
    detect_peaks x mph mpd threshold left_threshold right_threshold edge kpsh true =
      detect_peaks (x.map (fun q => -q)) (mph.map (fun q => -q)) mpd threshold
        left_threshold right_threshold edge kpsh false := rfl

/-- C7 counterexample: on [0,1,0,2,0,3,0,2,0,1,0] with mpd = 2 the function returns [5],
not the candidate list [1,3,5,7,9] minus only distance-suppressed entries (which would be
[1,5,9], or [1,3,5,7,9] itself on the laxer reading): the indices 1 and 9 are removed by
the border rule of line 197, which the claim does not account for. -/
theorem detect_peaks_concrete_counterexample :
    detect_peaks [0,1,0,2,0,3,0,2,0,1,0] Option.none 2 0 0 0 (some Edge.rising)
        false false = [5] ∧
      ([5] : List ℕ) ≠ [1, 5, 9] ∧ ([5] : List ℕ) ≠ [1, 3, 5, 7, 9] := by
  refine ⟨by with_unfolding_all decide, by decide, by decide⟩

/-- C7 (amended): on [0,1,0,2,0,3,0,2,0,1,0] with mpd = 2 the candidates are
[1,3,5,7,9]; the border rule first discards 1 and 9 (within mpd of the array ends), and
descending-height suppression then removes 3 and 7 in favour of the tallest peak, so the
function returns [5]. -/
theorem detect_peaks_concrete_example :
    detect_peaks [0,1,0,2,0,3,0,2,0,1,0] Option.none 2 0 0 0 (some Edge.rising)
      false false = [5] := by
  with_unfolding_all decide

/-- C3 counterexample: with threshold = 2 and mpd = 2 on [0,3,0,4,0,0,0], the candidate
at index 3 survives even though its value 4 does not exceed every one of the two samples
to its left by 2 (it exceeds x[1] = 3 by only 1): the filter of line 219 compares against
the smallest, not every, sample of the window. -/
theorem detect_peaks_threshold_counterexample :
    detect_peaks [0,3,0,4,0,0,0] Option.none 2 2 0 0 (some Edge.rising) false false
        = [3] ∧
      ¬((2:ℚ) ≤ ([0,3,0,4,0,0,0] : List ℚ).getD 3 0 - ([0,3,0,4,0,0,0] : List ℚ).getD 1 0) := by
  refine ⟨by with_unfolding_all decide, by with_unfolding_all decide⟩

/-- C3 (amended): the threshold filter runs only when both effective thresholds (each
side-specific value defaulting to the generic threshold when it is not positive) are
positive, and then a candidate is kept iff its value exceeds the minimum of the mpd
samples to its left by at least the effective left threshold and the minimum of the mpd
samples to its right by at least the effective right threshold; otherwise the candidate
list passes unchanged. -/
theorem thresholdFilter_characterization (d : List ℚ) (mpd : ℕ)
    (threshold left_threshold right_threshold : ℚ) (ind : List ℕ) (hm : 1 ≤ mpd) :
    ((0 < (if 0 < left_threshold then left_threshold else threshold) ∧
      0 < (if 0 < right_threshold then right_threshold else threshold)) →
      ∀ i, i ∈ thresholdFilter d mpd threshold left_threshold right_threshold ind ↔
        i ∈ ind ∧
          (if 0 < left_threshold then left_threshold else threshold) ≤
            leftMaxDiff d mpd i ∧
          (if 0 < right_threshold then right_threshold else threshold) ≤
            rightMaxDiff d mpd i) ∧
    (¬(0 < (if 0 < left_threshold then left_threshold else threshold) ∧
      0 < (if 0 < right_threshold then right_threshold else threshold)) →
      thresholdFilter d mpd threshold left_threshold right_threshold ind = ind) := by
  constructor
  · intro hpos i
    unfold thresholdFilter
    rw [if_pos ⟨hpos.1, hpos.2, by omega⟩]
    simp only [List.mem_filter, decide_eq_true_eq]
    constructor
    · rintro ⟨⟨hmem, hl⟩, hr⟩
      exact ⟨hmem, hl, hr⟩
    · rintro ⟨hmem, hl, hr⟩
      exact ⟨⟨hmem, hl⟩, hr⟩
  · intro hneg
    unfold thresholdFilter
    rw [if_neg (fun hc => hneg ⟨hc.1, hc.2.1⟩)]

/-- C2 counterexample: a 4-sample zero signal at fs = 41 passes the length guard
(2^2 = 4 <= 4), yet its sliced envelope is empty, so the amplitude list is empty and
the source raises IndexError at the np.percentile call of line 666 instead of returning
a verdict: the claimed equivalence presupposes a returned verdict that does not
exist. -/
theorem is_ecg_signal_empty_envelope_counterexample :
    (2:ℚ) ^ isEcgTotLevel 41 ≤ ((List.replicate 4 (0:ℚ)).length : ℚ) ∧
    is_ecg_signal oEmpty (List.replicate 4 (0:ℚ)) 41 =
      Except.error "cannot do a non-empty take from an empty axes." := by
  refine ⟨by with_unfolding_all decide, by with_unfolding_all decide⟩

/-- C2 (amended): provided the signal is long enough for the pipeline to run, the qrs
level range lies inside the coefficient stack (0 < qrs_levels[0], i.e. fs > 40; below
that the envelope loop of line 633 itself raises IndexError), and the sliced envelope
yields at least one amplitude window (len(qrs_power) > 2*window_radius — otherwise
np.percentile raises IndexError on the empty amplitude list at line 666), the verdict
of is_ecg_signal is true exactly when the number of detected beat candidates lies in
the reasonable band; the confidence is 1.0 in the reasonable band, 0.4 in the merely
valid band, and 0 otherwise, so the 1.0 threshold is reached only in the first case. -/
theorem is_ecg_signal_confidence_iff (o : SwtOracle) (s : List ℚ) (fs : ℕ)
    (h : (2:ℚ) ^ isEcgTotLevel fs ≤ (s.length : ℚ))
    (hq : 0 < (qrsLevels fs).1)
    (hamps : (qrsAmplitudes (qrsPower o s fs (isEcgTotLevel fs)) fs).isEmpty = false) :
    (is_ecg_signal o s fs = Except.ok true ↔ reasonableCount o s fs (isEcgTotLevel fs)) ∧
    (reasonableCount o s fs (isEcgTotLevel fs) →
      confidence o s fs (isEcgTotLevel fs) = 1) ∧
    (¬reasonableCount o s fs (isEcgTotLevel fs) → validCount o s fs (isEcgTotLevel fs) →
      confidence o s fs (isEcgTotLevel fs) = 2/5) ∧
    (¬reasonableCount o s fs (isEcgTotLevel fs) → ¬validCount o s fs (isEcgTotLevel fs) →
      confidence o s fs (isEcgTotLevel fs) = 0) := by
  have hnl : ¬((s.length : ℚ) < (2:ℚ) ^ isEcgTotLevel fs) := not_lt.2 h
  have hoiff : ∀ b : Bool, ((Except.ok b : Except String Bool) = Except.ok true) ↔
      b = true :=
    fun b => ⟨fun hx => Except.ok.inj hx, fun hx => by rw [hx]⟩
  unfold is_ecg_signal
  rw [if_neg hnl, if_neg (by rw [hamps]; exact Bool.false_ne_true), hoiff]
  unfold confidence
  by_cases hr : reasonableCount o s fs (isEcgTotLevel fs)
  · rw [if_pos hr]
    refine ⟨?_, fun _ => rfl, fun hnr _ => absurd hr hnr, fun hnr _ => absurd hr hnr⟩
    constructor
    · intro _
      exact hr
    · intro _
      rw [decide_eq_true_eq]
  · rw [if_neg hr]
    by_cases hv : validCount o s fs (isEcgTotLevel fs)
    · rw [if_pos hv]
      refine ⟨?_, fun hr2 => absurd hr2 hr, fun _ _ => rfl, fun _ hnv => absurd hv hnv⟩
      constructor
      · intro hdec
        rw [decide_eq_true_eq] at hdec
        norm_num at hdec
      · intro hr2
        exact absurd hr2 hr
    · rw [if_neg hv]
      refine ⟨?_, fun hr2 => absurd hr2 hr, fun _ hv2 => absurd hv2 hv, fun _ _ => rfl⟩
      constructor
      · intro hdec
        rw [decide_eq_true_eq] at hdec
        norm_num at hdec
      · intro hr2
        exact absurd hr2 hr

/-- C2 witness: the 76-sample zero signal at fs = 41 with the constant oracle satisfies
all three hypotheses (length 4 <= 76, qrs_levels[0] = 1 > 0, one amplitude window on
the 28-sample envelope), yields zero detected beats, and is classified Except.ok false,
consistent with the equivalence (a beat count of 0 is outside the reasonable band). -/
theorem is_ecg_signal_confidence_iff_witness :
    ((2:ℚ) ^ isEcgTotLevel 41 ≤ ((sC2).length : ℚ) ∧ 0 < (qrsLevels 41).1 ∧
      (qrsAmplitudes (qrsPower oC2 sC2 41 (isEcgTotLevel 41)) 41).isEmpty = false) ∧
    ((is_ecg_signal oC2 sC2 41 = Except.ok true ↔
        reasonableCount oC2 sC2 41 (isEcgTotLevel 41)) ∧
      (reasonableCount oC2 sC2 41 (isEcgTotLevel 41) →
        confidence oC2 sC2 41 (isEcgTotLevel 41) = 1) ∧
      (¬reasonableCount oC2 sC2 41 (isEcgTotLevel 41) →
        validCount oC2 sC2 41 (isEcgTotLevel 41) →
        confidence oC2 sC2 41 (isEcgTotLevel 41) = 2/5) ∧
      (¬reasonableCount oC2 sC2 41 (isEcgTotLevel 41) →
        ¬validCount oC2 sC2 41 (isEcgTotLevel 41) →
        confidence oC2 sC2 41 (isEcgTotLevel 41) = 0)) :=
  ⟨⟨by with_unfolding_all decide, by with_unfolding_all decide,
      by with_unfolding_all decide⟩,
    is_ecg_signal_confidence_iff oC2 sC2 41 (by with_unfolding_all decide)
      (by with_unfolding_all decide) (by with_unfolding_all decide)⟩

/-- C8: a signal shorter than 2^tot_level makes is_ecg_signal return false without
running the pipeline, and makes wavelet_denoise return the sentinel result (is_ecg
false, ratio 1.0, unchanged signal, empty peak list and empty coefficients), in both
cases without raising. -/
theorem short_signal_degradation (o : SwtOracle) (s : List ℚ) (fs : ℕ) (w : String)
    (mode : AmplifyMode) (sides : SidesMode) (cval : ℤ) (std thr : ℚ)
    (h1 : (s.length : ℚ) < (2:ℚ) ^ isEcgTotLevel fs)
    (h2 : (s.length : ℚ) < (2:ℚ) ^ wdTotLevel fs) :
    is_ecg_signal o s fs = Except.ok false ∧
    wavelet_denoise o s fs w mode sides cval std thr =
      Except.ok ⟨false, some 1, s, [], sliceLen fs, w, []⟩ := by
  constructor
  · unfold is_ecg_signal
    rw [if_pos h1]
  · unfold wavelet_denoise
    rw [if_pos h2]

/-- C8 witness: a 3-sample signal at fs = 41 is shorter than both minimum lengths. -/
theorem short_signal_degradation_witness :
    ((List.replicate 3 (0:ℚ)).length : ℚ) < (2:ℚ) ^ isEcgTotLevel 41 ∧
    ((List.replicate 3 (0:ℚ)).length : ℚ) < (2:ℚ) ^ wdTotLevel 41 ∧
    (is_ecg_signal oEmpty (List.replicate 3 (0:ℚ)) 41 = Except.ok false ∧
      wavelet_denoise oEmpty (List.replicate 3 (0:ℚ)) 41 "db6" AmplifyMode.ecg
          SidesMode.nearest 0 1100 500 =
        Except.ok ⟨false, some 1, List.replicate 3 (0:ℚ), [], sliceLen 41, "db6", []⟩) :=
  ⟨by with_unfolding_all decide, by with_unfolding_all decide,
    short_signal_degradation oEmpty (List.replicate 3 (0:ℚ)) 41 "db6" AmplifyMode.ecg
      SidesMode.nearest 0 1100 500 (by with_unfolding_all decide)
      (by with_unfolding_all decide)⟩

/-- C5 counterexample: wavelet_denoise called with sides_mode = interp on a short signal
returns a normal sentinel result instead of failing, so interp does not always fail and
the enumerated option is not rejected before computation begins. -/
theorem wavelet_denoise_interp_counterexample :
    wavelet_denoise oEmpty (List.replicate 8 (0:ℚ)) 41 "db6" AmplifyMode.ecg
        SidesMode.interp 0 1100 500 =
      Except.ok ⟨false, some 1, List.replicate 8 (0:ℚ), [], 24, "db6", []⟩ ∧
    resultOk (wavelet_denoise oEmpty (List.replicate 8 (0:ℚ)) 41 "db6" AmplifyMode.ecg
        SidesMode.interp 0 1100 500) = true := by
  refine ⟨by with_unfolding_all decide, by with_unfolding_all decide⟩

/-- C5 (amended): sides_mode = interp passes the upfront enum validation (it is in the
accepted list) and the call fails exactly when amplification is actually attempted:
the signal is long enough, classification succeeds, amplify_mode is not none and the
amplification ratio exceeds 1 — with the configuration error of line 1031, or, when the
selected level range extends below the coefficient stack (amplify_mode ecg at
fs <= 89, qrs at fs <= 80), with the IndexError of line 1010 that precedes it; in
every other case a normal result is returned. -/
theorem wavelet_denoise_interp_characterization (o : SwtOracle) (s : List ℚ) (fs : ℕ)
    (w : String) (mode : AmplifyMode) (cval : ℤ) (std thr : ℚ) :
    resultOk (wavelet_denoise o s fs w mode SidesMode.interp cval std thr) = false ↔
      ((2:ℚ) ^ wdTotLevel fs ≤ (s.length : ℚ) ∧
        1 ≤ confidence o s fs (wdTotLevel fs) ∧
        mode ≠ AmplifyMode.none ∧ 1 < wdRatio o s fs std thr) := by
  unfold wavelet_denoise
  by_cases hshort : (s.length : ℚ) < (2:ℚ) ^ wdTotLevel fs
  · rw [if_pos hshort]
    simp only [resultOk]
    constructor
    · intro hc
      cases hc
    · rintro ⟨hlen, _⟩
      exact absurd hshort (not_lt.2 hlen)
  · rw [if_neg hshort]
    push_neg at hshort
    by_cases hconf : 1 ≤ confidence o s fs (wdTotLevel fs)
    · rw [if_pos hconf]
      by_cases hamp : mode ≠ AmplifyMode.none ∧ 1 < wdRatio o s fs std thr
      · rw [if_pos hamp]
        by_cases hlu : (levelsInUse fs mode).1 ≤ 0 ∧
            (levelsInUse fs mode).1 < (levelsInUse fs mode).2
        · rw [if_pos hlu]
          simp only [resultOk]
          constructor
          · intro _
            exact ⟨hshort, hconf, hamp.1, hamp.2⟩
          · intro _
            trivial
        · rw [if_neg hlu]
          simp only [sidesApply, resultOk]
          constructor
          · intro _
            exact ⟨hshort, hconf, hamp.1, hamp.2⟩
          · intro _
            trivial
      · rw [if_neg hamp]
        simp only [resultOk]
        constructor
        · intro hc
          cases hc
        · rintro ⟨_, _, hm, hrt⟩
          exact absurd ⟨hm, hrt⟩ hamp
    · rw [if_neg hconf]
      simp only [resultOk]
      constructor
      · intro hc
        cases hc
      · rintro ⟨_, hc, _⟩
        exact absurd hc hconf

/-- C4 counterexample: a concrete ECG-classified low-amplitude run with
amplify_mode = none returns amplified_ratio 11, which is neither 1.0 nor NaN. -/
theorem wavelet_denoise_amplify_none_counterexample :
    (wavelet_denoise oW sW 41 "db6" AmplifyMode.none SidesMode.nearest 0 1100 500).map
        (fun r => r.amplified_ratio) = Except.ok (some 11) ∧
      ¬(some (11:ℚ) = some 1 ∨ some (11:ℚ) = (Option.none : Option ℚ)) := by
  refine ⟨by with_unfolding_all decide, by with_unfolding_all decide⟩

/-- C4 (amended): with amplify_mode = none the returned amplified_signal always equals
the input signal elementwise, and the returned amplified_ratio is NaN (signal not
classified as ECG), 1.0 (no amplification needed), or the computed amplification ratio
standard/amp for a 75th-percentile amplitude amp below the threshold — the code reports
that ratio even though the signal itself is returned unamplified. -/
theorem wavelet_denoise_amplify_none (o : SwtOracle) (s : List ℚ) (fs : ℕ) (w : String)
    (sides : SidesMode) (cval : ℤ) (std thr : ℚ) :
    ∃ r, wavelet_denoise o s fs w AmplifyMode.none sides cval std thr = Except.ok r ∧
      r.amplified_signal = s ∧
      (r.amplified_ratio = Option.none ∨ r.amplified_ratio = some 1 ∨
        (r.amplified_ratio = some (std / wdQrsAmp o s fs) ∧ wdQrsAmp o s fs < thr)) := by
  unfold wavelet_denoise
  by_cases hshort : (s.length : ℚ) < (2:ℚ) ^ wdTotLevel fs
  · rw [if_pos hshort]
    exact ⟨_, rfl, rfl, Or.inr (Or.inl rfl)⟩
  · rw [if_neg hshort]
    by_cases hconf : 1 ≤ confidence o s fs (wdTotLevel fs)
    · rw [if_pos hconf, if_neg (fun hc => hc.1 rfl)]
      by_cases hlt : wdQrsAmp o s fs < thr
      · have hr : wdRatio o s fs std thr = std / wdQrsAmp o s fs := by
          unfold wdRatio
          rw [if_pos hlt]
        rw [hr]
        exact ⟨_, rfl, rfl, Or.inr (Or.inr ⟨rfl, hlt⟩)⟩
      · have hr : wdRatio o s fs std thr = 1 := by
          unfold wdRatio
          rw [if_neg hlt]
        rw [hr]
        exact ⟨_, rfl, rfl, Or.inr (Or.inl rfl)⟩
    · rw [if_neg hconf]
      exact ⟨_, rfl, rfl, Or.inl rfl⟩

/-- C10: with the default standard amplitude 1100 and amplification threshold 500,
whenever wavelet_denoise returns a ratio that is neither NaN nor 1.0 and the measured
75th-percentile QRS amplitude is positive, the ratio equals 1100 divided by that
amplitude, the amplitude is strictly below 500, hence the ratio exceeds 11/5 = 2.2 and
in particular is never strictly between 0 and 1: the denoiser never attenuates. -/
theorem wavelet_denoise_ratio_floor (o : SwtOracle) (s : List ℚ) (fs : ℕ) (w : String)
    (mode : AmplifyMode) (sides : SidesMode) (cval : ℤ) (r : WaveletDenoiseResult) (q : ℚ)
    (hok : wavelet_denoise o s fs w mode sides cval 1100 500 = Except.ok r)
    (hq : r.amplified_ratio = some q) (hq1 : q ≠ 1) (hamp : 0 < wdQrsAmp o s fs) :
    q = 1100 / wdQrsAmp o s fs ∧ wdQrsAmp o s fs < 500 ∧ 11/5 < q ∧ ¬(0 < q ∧ q < 1) := by
  unfold wavelet_denoise at hok
  by_cases hshort : (s.length : ℚ) < (2:ℚ) ^ wdTotLevel fs
  · rw [if_pos hshort] at hok
    have hrr := Except.ok.inj hok
    rw [← hrr] at hq
    exact absurd (Option.some.inj hq).symm hq1
  · rw [if_neg hshort] at hok
    by_cases hconf : 1 ≤ confidence o s fs (wdTotLevel fs)
    · rw [if_pos hconf] at hok
      have hqr : q = wdRatio o s fs 1100 500 := by
        by_cases hampc : mode ≠ AmplifyMode.none ∧ 1 < wdRatio o s fs 1100 500
        · rw [if_pos hampc] at hok
          by_cases hlu : (levelsInUse fs mode).1 ≤ 0 ∧
              (levelsInUse fs mode).1 < (levelsInUse fs mode).2
          · rw [if_pos hlu] at hok
            exact Except.noConfusion hok
          · rw [if_neg hlu] at hok
            cases hsa : sidesApply sides cval (sliceLen fs) (wdRecon o s fs mode 1100 500) with
            | error e =>
              rw [hsa] at hok
              exact Except.noConfusion hok
            | ok sig =>
              rw [hsa] at hok
              have hrr := Except.ok.inj hok
              rw [← hrr] at hq
              exact (Option.some.inj hq).symm
        · rw [if_neg hampc] at hok
          have hrr := Except.ok.inj hok
          rw [← hrr] at hq
          exact (Option.some.inj hq).symm
      unfold wdRatio at hqr
      by_cases hlt : wdQrsAmp o s fs < 500
      · rw [if_pos hlt] at hqr
        subst hqr
        have hstep : (1100:ℚ)/500 < 1100 / wdQrsAmp o s fs :=
          div_lt_div_of_pos_left (by norm_num) hamp hlt
        refine ⟨rfl, hlt, ?_, ?_⟩
        · calc (11:ℚ)/5 = 1100/500 := by norm_num
            _ < 1100 / wdQrsAmp o s fs := hstep
        · rintro ⟨_, hlt1⟩
          have hcon : (1100:ℚ)/500 < 1 := lt_trans hstep hlt1
          norm_num at hcon
      · rw [if_neg hlt] at hqr
        exact absurd hqr hq1
    · rw [if_neg hconf] at hok
      have hrr := Except.ok.inj hok
      rw [← hrr] at hq
      exact Option.noConfusion hq

/-- C10 witness: the concrete run from the C4 counterexample, where the amplitude is
100 and the returned ratio is 11 = 1100/100 > 2.2. -/
theorem wavelet_denoise_ratio_floor_witness :
    wavelet_denoise oW sW 41 "db6" AmplifyMode.none SidesMode.nearest 0 1100 500 =
        Except.ok rW ∧
      rW.amplified_ratio = some 11 ∧ (11:ℚ) ≠ 1 ∧ 0 < wdQrsAmp oW sW 41 ∧
      ((11:ℚ) = 1100 / wdQrsAmp oW sW 41 ∧ wdQrsAmp oW sW 41 < 500 ∧
        (11:ℚ)/5 < 11 ∧ ¬(0 < (11:ℚ) ∧ (11:ℚ) < 1)) := by
  have hok : wavelet_denoise oW sW 41 "db6" AmplifyMode.none SidesMode.nearest 0
      1100 500 = Except.ok rW := by
    with_unfolding_all decide
  have hamp : 0 < wdQrsAmp oW sW 41 := by
    with_unfolding_all decide
  exact ⟨hok, rfl, by norm_num, hamp,
    wavelet_denoise_ratio_floor oW sW 41 "db6" AmplifyMode.none SidesMode.nearest 0 rW 11
      hok rfl (by norm_num) hamp⟩

theorem overwriteAux_length (f : ℕ → ℚ) (a b : ℕ) :
    ∀ (i : ℕ) (l : List ℚ), (overwriteAux f a b i l).length = l.length := by
  intro i l
  induction l generalizing i with
  | nil => rfl
  | cons v t ih => simp [overwriteAux, ih]

theorem overwrite_length (l : List ℚ) (a b : ℕ) (f : ℕ → ℚ) :
    (overwrite l a b f).length = l.length := overwriteAux_length f a b 0 l

theorem overwriteAux_getD (f : ℕ → ℚ) (a b : ℕ) :
    ∀ (i k : ℕ) (l : List ℚ), k < l.length →
      (overwriteAux f a b i l).getD k 0 =
        if a ≤ i + k ∧ i + k < b then f (i + k) else l.getD k 0 := by
  intro i k l
  induction l generalizing i k with
  | nil =>
    intro h
    simp at h
  | cons v t ih =>
    intro hk
    simp only [overwriteAux]
    cases k with
    | zero =>
      rw [List.getD_cons_zero, List.getD_cons_zero]
      simp
    | succ k2 =>
      rw [List.getD_cons_succ, List.getD_cons_succ]
      rw [ih (i+1) k2 (by simp only [List.length_cons] at hk; omega)]
      have h3 : i + 1 + k2 = i + (k2 + 1) := by omega
      rw [h3]

theorem overwrite_getD (l : List ℚ) (a b : ℕ) (f : ℕ → ℚ) {k : ℕ} (h : k < l.length) :
    (overwrite l a b f).getD k 0 = if a ≤ k ∧ k < b then f k else l.getD k 0 := by
  have hmain := overwriteAux_getD f a b 0 k l h
  simpa using hmain

/-- C9 counterexample: the concrete fs = 41 run with the default amplify_mode = ecg
satisfies every condition of the claim (signal long enough, classified ECG, mode not
none, ratio 11 > 1, sides_mode = constant), yet ecg_levels[0] = -1 sends the first
iteration of the amplification loop past the coefficient stack, so the source raises
IndexError at line 1010 and no amplified signal with cval sides is returned at all. -/
theorem wavelet_denoise_constant_sides_counterexample :
    ((2:ℚ) ^ wdTotLevel 41 ≤ ((sW).length : ℚ)) ∧
    (1 ≤ confidence oW sW 41 (wdTotLevel 41)) ∧
    (AmplifyMode.ecg ≠ AmplifyMode.none) ∧
    (1 < wdRatio oW sW 41 1100 500) ∧
    wavelet_denoise oW sW 41 "db6" AmplifyMode.ecg SidesMode.constant 5 1100 500 =
      Except.error "list index out of range" := by
  refine ⟨by with_unfolding_all decide, by with_unfolding_all decide,
    fun hc => AmplifyMode.noConfusion hc, by with_unfolding_all decide,
    by with_unfolding_all decide⟩

/-- C9 (amended): when a long-enough signal is classified as ECG and amplification is
performed (amplify_mode not none, ratio above 1) with sides_mode = constant, and the
selected level range lies inside the coefficient stack (1 <= levels_in_use[0], which
fails for amplify_mode ecg at fs <= 89 and qrs at fs <= 80, where the source instead
raises IndexError at line 1010), the first and last side_len = 2*window_radius samples
of the returned amplified_signal equal cval, every interior sample equals the
corresponding sample of the rounded wavelet reconstruction, and the reported side_len
is 2*window_radius. -/
theorem wavelet_denoise_constant_sides (o : SwtOracle) (s : List ℚ) (fs : ℕ) (w : String)
    (mode : AmplifyMode) (cval : ℤ) (std thr : ℚ)
    (hlen : (2:ℚ) ^ wdTotLevel fs ≤ (s.length : ℚ))
    (hconf : 1 ≤ confidence o s fs (wdTotLevel fs))
    (hmode : mode ≠ AmplifyMode.none)
    (hratio : 1 < wdRatio o s fs std thr)
    (hlu : 1 ≤ (levelsInUse fs mode).1)
    (hrl : (wdRecon o s fs mode std thr).length = s.length) :
    ∃ r, wavelet_denoise o s fs w mode SidesMode.constant cval std thr = Except.ok r ∧
      r.side_len = 2 * windowRadius fs ∧
      r.amplified_signal.length = s.length ∧
      (∀ i, i < sliceLen fs → i < s.length → r.amplified_signal.getD i 0 = (cval : ℚ)) ∧
      (∀ i, s.length - sliceLen fs ≤ i → i < s.length →
        r.amplified_signal.getD i 0 = (cval : ℚ)) ∧
      (∀ i, sliceLen fs ≤ i → i < s.length - sliceLen fs →
        r.amplified_signal.getD i 0 = (wdRecon o s fs mode std thr).getD i 0) := by
  unfold wavelet_denoise
  rw [if_neg (not_lt.2 hlen), if_pos hconf, if_pos ⟨hmode, hratio⟩, if_neg (by omega)]
  simp only [sidesApply]
  set R := wdRecon o s fs mode std thr with hR
  refine ⟨_, rfl, rfl, ?_, ?_, ?_, ?_⟩
  · show (overwrite (overwrite R 0 (sliceLen fs) (fun _ => (cval : ℚ)))
        (R.length - sliceLen fs) R.length (fun _ => (cval : ℚ))).length = s.length
    rw [overwrite_length, overwrite_length, hrl]
  · show ∀ i, i < sliceLen fs → i < s.length →
      (overwrite (overwrite R 0 (sliceLen fs) (fun _ => (cval : ℚ)))
        (R.length - sliceLen fs) R.length (fun _ => (cval : ℚ))).getD i 0 = (cval : ℚ)
    intro i h1 h2
    have hia : i < (overwrite R 0 (sliceLen fs) (fun _ => (cval : ℚ))).length := by
      rw [overwrite_length, hrl]
      exact h2
    rw [overwrite_getD _ _ _ _ hia]
    by_cases htail : R.length - sliceLen fs ≤ i ∧ i < R.length
    · rw [if_pos htail]
    · rw [if_neg htail]
      have hirec : i < R.length := by
        rw [hrl]
        exact h2
      rw [overwrite_getD _ _ _ _ hirec, if_pos ⟨Nat.zero_le i, h1⟩]
  · show ∀ i, s.length - sliceLen fs ≤ i → i < s.length →
      (overwrite (overwrite R 0 (sliceLen fs) (fun _ => (cval : ℚ)))
        (R.length - sliceLen fs) R.length (fun _ => (cval : ℚ))).getD i 0 = (cval : ℚ)
    intro i h1 h2
    have hia : i < (overwrite R 0 (sliceLen fs) (fun _ => (cval : ℚ))).length := by
      rw [overwrite_length, hrl]
      exact h2
    rw [overwrite_getD _ _ _ _ hia, if_pos ⟨by rw [hrl]; exact h1, by rw [hrl]; exact h2⟩]
  · show ∀ i, sliceLen fs ≤ i → i < s.length - sliceLen fs →
      (overwrite (overwrite R 0 (sliceLen fs) (fun _ => (cval : ℚ)))
        (R.length - sliceLen fs) R.length (fun _ => (cval : ℚ))).getD i 0 = R.getD i 0
    intro i h1 h2
    have hia : i < (overwrite R 0 (sliceLen fs) (fun _ => (cval : ℚ))).length := by
      rw [overwrite_length, hrl]
      omega
    rw [overwrite_getD _ _ _ _ hia]
    rw [if_neg (by rw [hrl]; omega)]
    have hirec : i < R.length := by
      rw [hrl]
      omega
    rw [overwrite_getD _ _ _ _ hirec]
    rw [if_neg (by omega)]

/-- C9 witness: the concrete amplified run (amplify_mode = all, cval = 5) on the
fs = 41 scenario, where the amplification branch is taken with ratio 11 and the level
range (1, 8) lies inside the 8-row stack. -/
theorem wavelet_denoise_constant_sides_witness :
    ((2:ℚ) ^ wdTotLevel 41 ≤ ((sW).length : ℚ)) ∧
    (1 ≤ confidence oW sW 41 (wdTotLevel 41)) ∧
    (AmplifyMode.all ≠ AmplifyMode.none) ∧
    (1 < wdRatio oW sW 41 1100 500) ∧
    (1 ≤ (levelsInUse 41 AmplifyMode.all).1) ∧
    ((wdRecon oW sW 41 AmplifyMode.all 1100 500).length = sW.length) ∧
    (∃ r, wavelet_denoise oW sW 41 "db6" AmplifyMode.all SidesMode.constant 5 1100 500 =
        Except.ok r ∧
      r.side_len = 2 * windowRadius 41 ∧
      r.amplified_signal.length = sW.length ∧
      (∀ i, i < sliceLen 41 → i < sW.length → r.amplified_signal.getD i 0 = ((5:ℤ) : ℚ)) ∧
      (∀ i, sW.length - sliceLen 41 ≤ i → i < sW.length →
        r.amplified_signal.getD i 0 = ((5:ℤ) : ℚ)) ∧
      (∀ i, sliceLen 41 ≤ i → i < sW.length - sliceLen 41 →
        r.amplified_signal.getD i 0 =
          (wdRecon oW sW 41 AmplifyMode.all 1100 500).getD i 0)) := by
  have h1 : (2:ℚ) ^ wdTotLevel 41 ≤ ((sW).length : ℚ) := by with_unfolding_all decide
  have h2 : 1 ≤ confidence oW sW 41 (wdTotLevel 41) := by with_unfolding_all decide
  have h4 : 1 < wdRatio oW sW 41 1100 500 := by with_unfolding_all decide
  have h4b : 1 ≤ (levelsInUse 41 AmplifyMode.all).1 := by with_unfolding_all decide
  have h5 : (wdRecon oW sW 41 AmplifyMode.all 1100 500).length = sW.length := by
    with_unfolding_all decide
  exact ⟨h1, h2, fun hc => AmplifyMode.noConfusion hc, h4, h4b, h5,
    wavelet_denoise_constant_sides oW sW 41 "db6" AmplifyMode.all 5 1100 500 h1 h2
      (fun hc => AmplifyMode.noConfusion hc) h4 h4b h5⟩

/-- C3 witness: the characterization instantiated at the counterexample data, where the
filter keeps index 3. -/
theorem thresholdFilter_characterization_witness :
    1 ≤ 2 ∧
    (((0 < (if (0:ℚ) < 0 then (0:ℚ) else 2) ∧ 0 < (if (0:ℚ) < 0 then (0:ℚ) else 2)) →
      ∀ i, i ∈ thresholdFilter [0,3,0,4,0,0,0] 2 2 0 0 [3] ↔
        i ∈ [3] ∧
          (if (0:ℚ) < 0 then (0:ℚ) else 2) ≤ leftMaxDiff [0,3,0,4,0,0,0] 2 i ∧
          (if (0:ℚ) < 0 then (0:ℚ) else 2) ≤ rightMaxDiff [0,3,0,4,0,0,0] 2 i) ∧
    (¬(0 < (if (0:ℚ) < 0 then (0:ℚ) else 2) ∧ 0 < (if (0:ℚ) < 0 then (0:ℚ) else 2)) →
      thresholdFilter [0,3,0,4,0,0,0] 2 2 0 0 [3] = [3])) :=
  ⟨by omega, thresholdFilter_characterization [0,3,0,4,0,0,0] 2 2 0 0 [3] (by omega)⟩

end UtilsSignal
